import Mathlib

/-!
Shallow embedding of the media pipeline in
`src/examples/video_call/src/main.rs`, together with theorems settling the
specification's claims about it.

Conventions:
  - `i16` samples are modelled as `Int`; the source only ever stores values
    produced by casts that keep them in the `i16` range, and no theorem here
    depends on the machine width beyond the explicit cast functions below.
  - `f32` arithmetic (the volume scalar of `AudioMixer`) is modelled as exact
    rational arithmetic.  Every concrete input appearing in a theorem below
    (1000 · 0.5, 2000 · 0.5, the clamp of 0.5 into [0,1]) is exactly
    representable in `f32`, and the `AudioMixer` invariants proved here do not
    depend on the value a sample scales to, so the rational model is faithful
    for everything stated.
  - `VecDeque<i16>` is modelled as a `List Int` whose head is the front
    (oldest element): `push_back` is append, `pop_front` takes the tail.
-/

namespace VideoCall

/-- Lower bound of the `i16` range. -/
def i16Min : Int := -32768

/-- Upper bound of the `i16` range. -/
def i16Max : Int := 32767

/-- Rust `as i16` applied to an `f32` value: truncation toward zero followed
by saturation at the `i16` bounds.  The rational argument stands for the exact
value of the `f32`. -/
def f32AsI16 (q : ℚ) : Int :=
  max i16Min (min i16Max (Int.tdiv q.num (q.den : Int)))

/-- Rust `as i16` applied to an `i32` value: wrapping (two's-complement
truncation) to the low 16 bits.  For `0 ≤ x < 65536` this is also the value
read when the 16 bits of an unsigned `x` are reinterpreted as an `i16`
(`transmute_copy::<u16, i16>`). -/
def i32AsI16 (x : Int) : Int :=
  (x + 32768) % 65536 - 32768

/-- The `AudioMixer` struct of `main.rs` (lines 251-266), minus the shared
`Arc<Mutex<VecDeque<i16>>>` handle: the buffer contents are passed explicitly
to each operation. -/
structure AudioMixer where
  volume : ℚ
  max_buffer_size : Nat

/-- `AudioMixer::new` (lines 259-266): capacity is `sample_rate` (one second
of mono audio) and the volume is clamped into `[0.0, 1.0]`. -/
def AudioMixer.new (sample_rate : Nat) (volume : ℚ) : AudioMixer :=
  { volume := min (max volume 0) 1
    max_buffer_size := sample_rate }

/-- The scaling applied to each incoming sample by `add_audio_data`
(line 271): `(sample as f32 * self.volume) as i16`. -/
def AudioMixer.scaled (m : AudioMixer) (s : Int) : Int :=
  f32AsI16 ((s : ℚ) * m.volume)

/-- One iteration of the loop body of `AudioMixer::add_audio_data`
(lines 270-276): scale the sample by the volume, `push_back` it, and if the
length now exceeds `max_buffer_size`, `pop_front` the oldest sample. -/
def AudioMixer.pushSample (m : AudioMixer) (buf : List Int) (s : Int) : List Int :=
  if m.max_buffer_size < (buf ++ [m.scaled s]).length
  then (buf ++ [m.scaled s]).tail
  else buf ++ [m.scaled s]

/-- `AudioMixer::add_audio_data` (lines 268-277): fold `pushSample` over the
incoming slice. -/
def AudioMixer.add_audio_data (m : AudioMixer) (buf : List Int) (data : List Int) :
    List Int :=
  data.foldl m.pushSample buf

/-- `AudioMixer::get_samples` (lines 279-287): pop `count` samples from the
front, substituting `0` when the buffer is exhausted (`pop_front().unwrap_or(0)`).
Returns the output vector together with the buffer left behind. -/
def AudioMixer.get_samples : List Int → Nat → List Int × List Int
  | buf, 0 => ([], buf)
  | [], n + 1 =>
    let r := AudioMixer.get_samples [] n
    (0 :: r.1, r.2)
  | x :: xs, n + 1 =>
    let r := AudioMixer.get_samples xs n
    (x :: r.1, r.2)

/-- `std::mem::size_of::<f32>()`. -/
def sizeOfF32 : Nat := 4

/-- `std::mem::size_of::<i16>()`. -/
def sizeOfI16 : Nat := 2

/-- `std::mem::size_of::<u16>()`. -/
def sizeOfU16 : Nat := 2

/-- A sample delivered by `cpal` to `build_input_stream`, for the three
instantiations `T ∈ {f32, i16, u16}` that `start_audio_capture` uses
(lines 400-402).  An `f32` is modeled by its exact rational value; the two
2-byte integer types by their numeric reading of the same 16 bits (`u16Sample`
carries the unsigned reading, `0 ≤ u < 65536`). -/
inductive CpalSample
  | f32Sample (v : ℚ)
  | i16Sample (v : Int)
  | u16Sample (u : Nat)

/-- `std::mem::size_of::<T>()` for the sample's type `T`. -/
def CpalSample.size_of : CpalSample → Nat
  | .f32Sample _ => sizeOfF32
  | .i16Sample _ => sizeOfI16
  | .u16Sample _ => sizeOfU16

/-- `convert_to_i16` (lines 433-446): an `else if` chain dispatching on
`size_of::<T>()`.  The 4-byte branch transmutes to `f32`, clamps to
`[-1.0, 1.0]` and scales by `i16::MAX`; the first 2-byte branch transmutes
the 16 bits to `i16` (for a `u16` sample this is plain bit reinterpretation);
the second 2-byte branch would re-center a `u16` by subtracting
`u16::MAX as i32 / 2 = 32767` and wrap-cast, but it is unreachable: any
sample passing its `size == size_of::<u16>()` test already passed the
previous `size == size_of::<i16>()` test, the two sizes being equal.  The `0`
arms inside each branch stand for `transmute_copy` results that no actual
instantiation produces (no sample of another size reaches them). -/
def convert_to_i16 (s : CpalSample) : Int :=
  if s.size_of = sizeOfF32 then
    match s with
    | .f32Sample v => f32AsI16 (min 1 (max (-1) v) * 32767)
    | _ => 0
  else if s.size_of = sizeOfI16 then
    match s with
    | .i16Sample v => v
    | .u16Sample u => i32AsI16 (u : Int)
    | _ => 0
  else if s.size_of = sizeOfU16 then
    match s with
    | .u16Sample u => i32AsI16 ((u : Int) - Int.tdiv 65535 2)
    | _ => 0
  else
    0

/-- The `cpal::SampleFormat` variants a device configuration can report. -/
inductive SampleFormat
  | i8 | i16 | i32 | i64 | u8 | u16 | u32 | u64 | f32 | f64
deriving DecidableEq

/-- Outcome of stream construction, as far as format dispatch is concerned:
either an input/output stream is built for the format, or construction is
rejected with the unsupported-format error before any stream exists. -/
inductive StreamBuildOutcome
  | built (fmt : SampleFormat)
  | unsupportedFmtError (fmt : SampleFormat)
deriving DecidableEq

/-- The format dispatch of `start_audio_capture` (lines 399-404): `F32`, `I16`
and `U16` reach `build_input_stream`; every other format returns
`Err(anyhow!("Unsupported sample format: ..."))` before any stream is built. -/
def start_audio_capture_dispatch (fmt : SampleFormat) : StreamBuildOutcome :=
  match fmt with
  | .f32 => .built .f32
  | .i16 => .built .i16
  | .u16 => .built .u16
  | f => .unsupportedFmtError f

/-- The format dispatch of `start_audio_playback` (lines 454-459), identical
in structure to the capture side. -/
def start_audio_playback_dispatch (fmt : SampleFormat) : StreamBuildOutcome :=
  match fmt with
  | .f32 => .built .f32
  | .i16 => .built .i16
  | .u16 => .built .u16
  | f => .unsupportedFmtError f

/-- The two conversion paths of the camera loop. -/
inductive ConversionPath
  | rawRGB
  | compressedMJPEG
deriving DecidableEq

/-- The format dispatch of the camera capture loop (line 956):
`if src_bytes.len() == (w as usize * h as usize * 3)` the buffer goes to
`rs_RGB24ToI420` (raw RGB), otherwise to `rs_MJPGToI420` (compressed). -/
def frameDispatch (w h : Nat) (src_bytes : List UInt8) : ConversionPath :=
  if src_bytes.length = w * h * 3 then .rawRGB else .compressedMJPEG

/-- `samples_per_10ms` of the microphone pump (line 828): `sample_rate / 100`. -/
def samples_per_10ms (sample_rate : Nat) : Nat :=
  sample_rate / 100

/-- The inner `while buf.len() >= samples_per_10ms` loop of the microphone
pump task (lines 833-844): drain chunks of exactly `n` samples off the front
of `buf`, in order, and return them with the remaining buffer.  (The source
loop would not terminate for `n = 0`, i.e. `sample_rate < 100`; the guard
`0 < n` restricts the model to the terminating case, and every theorem using
this definition assumes it.) -/
def drainChunks (n : Nat) (buf : List Int) : List (List Int) × List Int :=
  if _h : 0 < n ∧ n ≤ buf.length then
    let r := drainChunks n (buf.drop n)
    (buf.take n :: r.1, r.2)
  else
    ([], buf)
termination_by buf.length
decreasing_by
  simp only [List.length_drop]
  omega

/-- One iteration of the outer `while let Some(data) = mic_rx.recv()` loop of
the microphone pump task (lines 831-844): append the received packet to the
carry buffer (`buf.extend_from_slice(&data)`), then drain and deliver all full
chunks. -/
def micPumpStep (n : Nat) (st : List (List Int) × List Int) (d : List Int) :
    List (List Int) × List Int :=
  (st.1 ++ (drainChunks n (st.2 ++ d)).1, (drainChunks n (st.2 ++ d)).2)

/-- The microphone pump task (lines 829-846) run over a whole sequence of
received packets, starting from an empty carry buffer.  Returns the chunks
delivered to the publish sink, in delivery order, and the final carry
buffer. -/
def micPump (n : Nat) (packets : List (List Int)) : List (List Int) × List Int :=
  packets.foldl (micPumpStep n) ([], [])

/-- The loops spawned by `main` that run concurrently with the camera/idle
loop: the Ctrl-C waiter (line 573), the room event handler (line 674), the
per-remote-video-track receive thread (line 708, `std::thread::spawn`), the
per-remote-audio-track receive task (line 745) and the microphone pump task
(line 829). -/
inductive SpawnedLoop
  | ctrlcWaiter
  | roomEventHandler
  | remoteVideoReceiveThread
  | remoteAudioReceiveTask
  | micPumpTask
deriving DecidableEq

/-- All loop spawn sites in `main`.  None of the spawn expressions binds its
`JoinHandle`: every handle is discarded at the spawn site. -/
def spawnedLoops : List SpawnedLoop :=
  [.ctrlcWaiter, .roomEventHandler, .remoteVideoReceiveThread,
   .remoteAudioReceiveTask, .micPumpTask]

/-- A step of `main` after the capture/idle loop observes the shutdown flag
and breaks. -/
inductive TeardownStep
  | printShuttingDown
  | roomClose
  | joinLoop (l : SpawnedLoop)
  | returnFromMain
deriving DecidableEq

/-- The teardown tail of `main` (lines 1022-1024): print, `room.close().await`,
return.  No `JoinHandle::join` / `.await` on a spawned loop appears. -/
def mainTeardown : List TeardownStep :=
  [.printShuttingDown, .roomClose, .returnFromMain]

/-- The spawned loops that `main` joins or awaits during teardown. -/
def joinedLoops : List SpawnedLoop :=
  mainTeardown.filterMap fun s =>
    match s with
    | .joinLoop l => some l
    | _ => none

/-! ### Helper lemmas about the ring buffer -/

/-- A single `pushSample` keeps the buffer within capacity. -/
lemma AudioMixer.pushSample_length_le (m : AudioMixer) (buf : List Int) (s : Int)
    (h : buf.length ≤ m.max_buffer_size) :
    (m.pushSample buf s).length ≤ m.max_buffer_size := by
  unfold AudioMixer.pushSample
  split
  next hc =>
    simp only [List.length_tail, List.length_append, List.length_singleton]
    omega
  next hc =>
    simp only [List.length_append, List.length_singleton] at hc ⊢
    omega

/-- `add_audio_data` keeps the buffer within capacity. -/
lemma AudioMixer.add_audio_data_length_le (m : AudioMixer) (buf data : List Int)
    (h : buf.length ≤ m.max_buffer_size) :
    (m.add_audio_data buf data).length ≤ m.max_buffer_size := by
  induction data generalizing buf with
  | nil => exact h
  | cons s rest ih =>
    exact ih (m.pushSample buf s) (m.pushSample_length_le buf s h)

/-- Closed form of `add_audio_data` on a buffer within capacity: the scaled
samples are appended and the result is the suffix fitting the capacity. -/
lemma AudioMixer.add_audio_data_eq (m : AudioMixer) (buf data : List Int)
    (h : buf.length ≤ m.max_buffer_size) :
    m.add_audio_data buf data
      = (buf ++ data.map m.scaled).drop
          (buf.length + data.length - m.max_buffer_size) := by
  induction data generalizing buf with
  | nil =>
    simp only [AudioMixer.add_audio_data, List.foldl_nil, List.map_nil,
      List.append_nil, List.length_nil, Nat.add_zero]
    rw [Nat.sub_eq_zero_of_le h, List.drop_zero]
  | cons s rest ih =>
    have hstep : m.add_audio_data buf (s :: rest)
        = m.add_audio_data (m.pushSample buf s) rest := rfl
    have hone : (1 : Nat) ≤ (buf ++ [m.scaled s]).length := by
      simp only [List.length_append, List.length_singleton]; omega
    have hseq : (buf ++ [m.scaled s]) ++ rest.map m.scaled
        = buf ++ (s :: rest).map m.scaled := by
      rw [List.append_assoc, List.singleton_append, ← List.map_cons]
    rw [hstep]
    by_cases hc : m.max_buffer_size < buf.length + 1
    · -- the buffer was exactly full: the oldest sample is evicted
      have hfull : buf.length = m.max_buffer_size := by omega
      have hpush : m.pushSample buf s = (buf ++ [m.scaled s]).drop 1 := by
        unfold AudioMixer.pushSample
        rw [if_pos (by simp only [List.length_append, List.length_singleton]; omega)]
        exact (List.drop_one _).symm
      have hlen : ((buf ++ [m.scaled s]).drop 1).length ≤ m.max_buffer_size := by
        simp only [List.length_drop, List.length_append, List.length_singleton]
        omega
      rw [hpush, ih ((buf ++ [m.scaled s]).drop 1) hlen]
      rw [← List.drop_append_of_le_length hone, List.drop_drop, hseq]
      congr 1
      simp only [List.length_drop, List.length_append, List.length_singleton,
        List.length_cons, List.length_nil]
      omega
    · -- room left: plain append
      have hpush : m.pushSample buf s = buf ++ [m.scaled s] := by
        unfold AudioMixer.pushSample
        rw [if_neg (by simp only [List.length_append, List.length_singleton]; omega)]
      have hlen : (buf ++ [m.scaled s]).length ≤ m.max_buffer_size := by
        simp only [List.length_append, List.length_singleton]; omega
      rw [hpush, ih (buf ++ [m.scaled s]) hlen, hseq]
      congr 1
      simp only [List.length_append, List.length_singleton, List.length_cons,
        List.length_nil]
      omega

/-- Closed form of `get_samples`: the front of the buffer, padded with zeros
up to the requested count; the buffer loses its first `n` samples. -/
lemma AudioMixer.get_samples_eq (buf : List Int) (n : Nat) :
    AudioMixer.get_samples buf n
      = (buf.take n ++ List.replicate (n - buf.length) 0, buf.drop n) := by
  induction n generalizing buf with
  | zero => simp [AudioMixer.get_samples]
  | succ k ih =>
    cases buf with
    | nil =>
      simp [AudioMixer.get_samples, ih, List.replicate_succ]
    | cons x xs =>
      simp [AudioMixer.get_samples, ih]

/-- `f32AsI16` is the identity on integers already in the `i16` range. -/
lemma f32AsI16_intCast (x : Int) (h1 : i16Min ≤ x) (h2 : x ≤ i16Max) :
    f32AsI16 (x : ℚ) = x := by
  unfold f32AsI16
  simp only [Rat.num_intCast, Rat.den_intCast, Nat.cast_one, Int.tdiv_one]
  simp only [i16Min, i16Max] at h1 h2 ⊢
  omega

/-- At volume `0.5`, an input sample of `1000` is stored as `500`. -/
lemma scaled_half_1000 : (AudioMixer.new 48000 (1/2)).scaled 1000 = 500 := by
  have hv : (AudioMixer.new 48000 (1/2)).volume = 1/2 := by
    unfold AudioMixer.new
    norm_num
  unfold AudioMixer.scaled
  rw [hv]
  have hq : ((1000 : Int) : ℚ) * (1/2) = ((500 : Int) : ℚ) := by norm_num
  rw [hq]
  exact f32AsI16_intCast 500 (by decide) (by decide)

/-- At volume `0.5`, an input sample of `2000` is stored as `1000`. -/
lemma scaled_half_2000 : (AudioMixer.new 48000 (1/2)).scaled 2000 = 1000 := by
  have hv : (AudioMixer.new 48000 (1/2)).volume = 1/2 := by
    unfold AudioMixer.new
    norm_num
  unfold AudioMixer.scaled
  rw [hv]
  have hq : ((2000 : Int) : ℚ) * (1/2) = ((1000 : Int) : ℚ) := by norm_num
  rw [hq]
  exact f32AsI16_intCast 1000 (by decide) (by decide)

/-- The chunk-drain loop: every drained chunk has exactly `n` samples, the
drained chunks followed by the leftover reassemble the buffer, and the
leftover is shorter than one chunk. -/
lemma drainChunks_spec (n : Nat) (buf : List Int) :
    0 < n →
    (∀ c ∈ (drainChunks n buf).1, c.length = n)
    ∧ (drainChunks n buf).1.flatten ++ (drainChunks n buf).2 = buf
    ∧ (drainChunks n buf).2.length < n := by
  induction buf using drainChunks.induct n with
  | case1 buf hcond ih =>
    intro hn
    obtain ⟨ih1, ih2, ih3⟩ := ih hn
    have hunf : drainChunks n buf
        = (buf.take n :: (drainChunks n (buf.drop n)).1,
           (drainChunks n (buf.drop n)).2) := by
      rw [drainChunks]
      rw [dif_pos hcond]
    refine ⟨?_, ?_, ?_⟩
    · intro c hc
      rw [hunf] at hc
      rcases List.mem_cons.mp hc with hc | hc
      · rw [hc, List.length_take]
        exact Nat.min_eq_left hcond.2
      · exact ih1 c hc
    · rw [hunf]
      simp only [List.flatten_cons, List.append_assoc]
      rw [ih2]
      exact List.take_append_drop n buf
    · rw [hunf]
      exact ih3
  | case2 buf hcond =>
    intro hn
    have hunf : drainChunks n buf = ([], buf) := by
      rw [drainChunks]
      rw [dif_neg hcond]
    have hlt : buf.length < n := by
      have : ¬ n ≤ buf.length := fun hle => hcond ⟨hn, hle⟩
      omega
    refine ⟨?_, ?_, ?_⟩
    · intro c hc
      rw [hunf] at hc
      cases hc
    · rw [hunf]
      simp
    · rw [hunf]
      exact hlt

/-- Invariant of the microphone pump fold: starting from full chunks and a
short carry buffer, the fold only delivers full chunks, delivers the entire
stream in order (chunks followed by the carry), and keeps the carry short. -/
lemma micPump_foldl_spec (n : Nat) (hn : 0 < n) (packets : List (List Int)) :
    ∀ (acc : List (List Int)) (buf : List Int),
      (∀ c ∈ acc, c.length = n) → buf.length < n →
      (∀ c ∈ (packets.foldl (micPumpStep n) (acc, buf)).1, c.length = n)
      ∧ (packets.foldl (micPumpStep n) (acc, buf)).1.flatten
            ++ (packets.foldl (micPumpStep n) (acc, buf)).2
          = acc.flatten ++ (buf ++ packets.flatten)
      ∧ (packets.foldl (micPumpStep n) (acc, buf)).2.length < n := by
  induction packets with
  | nil =>
    intro acc buf hacc hbuf
    refine ⟨hacc, ?_, hbuf⟩
    simp
  | cons d rest ih =>
    intro acc buf hacc hbuf
    obtain ⟨hd1, hd2, hd3⟩ := drainChunks_spec n (buf ++ d) hn
    have hstep : micPumpStep n (acc, buf) d
        = (acc ++ (drainChunks n (buf ++ d)).1, (drainChunks n (buf ++ d)).2) :=
      rfl
    have hacc' : ∀ c ∈ acc ++ (drainChunks n (buf ++ d)).1, c.length = n := by
      intro c hc
      rcases List.mem_append.mp hc with hc | hc
      · exact hacc c hc
      · exact hd1 c hc
    obtain ⟨h1, h2, h3⟩ := ih (acc ++ (drainChunks n (buf ++ d)).1)
      (drainChunks n (buf ++ d)).2 hacc' hd3
    rw [List.foldl_cons, hstep]
    refine ⟨h1, ?_, h3⟩
    rw [h2]
    calc (acc ++ (drainChunks n (buf ++ d)).1).flatten
          ++ ((drainChunks n (buf ++ d)).2 ++ rest.flatten)
        = acc.flatten ++ ((drainChunks n (buf ++ d)).1.flatten
            ++ ((drainChunks n (buf ++ d)).2 ++ rest.flatten)) := by
          rw [List.flatten_append, List.append_assoc]
      _ = acc.flatten ++ (((drainChunks n (buf ++ d)).1.flatten
            ++ (drainChunks n (buf ++ d)).2) ++ rest.flatten) := by
          rw [List.append_assoc]
      _ = acc.flatten ++ ((buf ++ d) ++ rest.flatten) := by rw [hd2]
      _ = acc.flatten ++ (buf ++ (d :: rest).flatten) := by
          rw [List.append_assoc, List.flatten_cons]

/-! ### Claim theorems -/

/-- Claim C1: for every sequence of `add_audio_data` calls on an `AudioMixer`
constructed with sample rate `R`, after each call (that is, after every prefix
of the call sequence) the buffer length is at most `capacity = R`; the buffer
never grows beyond one second of mono audio. -/
theorem audioMixer_ring_bound (R : Nat) (vol : ℚ) (calls : List (List Int))
    (i : Nat) :
    ((calls.take i).foldl (AudioMixer.new R vol).add_audio_data []).length ≤ R := by
  have key : ∀ (cs : List (List Int)) (buf : List Int),
      buf.length ≤ R →
      (cs.foldl (AudioMixer.new R vol).add_audio_data buf).length ≤ R := by
    intro cs
    induction cs with
    | nil => intro buf hb; exact hb
    | cons c rest ih =>
      intro buf hb
      exact ih _ ((AudioMixer.new R vol).add_audio_data_length_le buf c hb)
  exact key (calls.take i) [] (by simp)

/-- Claim C2: for every buffer state and every count `n`, `get_samples n`
returns exactly `n` samples: the up-to-`n` oldest buffered samples, removed
from the buffer and returned in order, padded with zero samples when fewer
than `n` are buffered. -/
theorem audioMixer_pull_determinism (buf : List Int) (n : Nat) :
    (AudioMixer.get_samples buf n).1.length = n
    ∧ (AudioMixer.get_samples buf n).1
        = buf.take n ++ List.replicate (n - buf.length) 0
    ∧ (AudioMixer.get_samples buf n).2 = buf.drop n := by
  rw [AudioMixer.get_samples_eq]
  refine ⟨?_, rfl, rfl⟩
  simp only [List.length_append, List.length_take, List.length_replicate]
  omega

/-- Claim C3: pushing `capacity + k` samples (`k > 0`) into an empty
`AudioMixer` leaves the buffer holding exactly the images under the push-time
volume scaling of the most recent `capacity` samples, oldest-first: the first
`k` pushed samples have been evicted. -/
theorem audioMixer_drop_oldest (R k : Nat) (vol : ℚ) (xs : List Int)
    (hk : 0 < k) (hlen : xs.length = R + k) :
    (AudioMixer.new R vol).add_audio_data [] xs
        = (xs.drop k).map (AudioMixer.new R vol).scaled
    ∧ ((AudioMixer.new R vol).add_audio_data [] xs).length = R := by
  have heq := (AudioMixer.new R vol).add_audio_data_eq [] xs (by simp)
  simp only [List.nil_append, List.length_nil, Nat.zero_add] at heq
  have hcap : (AudioMixer.new R vol).max_buffer_size = R := rfl
  rw [hcap] at heq
  constructor
  · rw [heq, List.map_drop]
    congr 1
    omega
  · rw [heq]
    simp only [List.length_drop, List.length_map]
    omega

/-- Witness for C3 at `R = 2`, `k = 1`, `vol = 1`, `xs = [1, 2, 3]`. -/
theorem audioMixer_drop_oldest_witness :
    ((0 : Nat) < 1 ∧ ([1, 2, 3] : List Int).length = 2 + 1)
    ∧ ((AudioMixer.new 2 1).add_audio_data [] [1, 2, 3]
          = (([1, 2, 3] : List Int).drop 1).map (AudioMixer.new 2 1).scaled)
    ∧ ((AudioMixer.new 2 1).add_audio_data [] [1, 2, 3]).length = 2 :=
  ⟨⟨by decide, by decide⟩, audioMixer_drop_oldest 2 1 1 [1, 2, 3] (by decide) (by decide)⟩

/-- Claim C4: on an empty `AudioMixer` with sample rate 48000 and volume 0.5,
pushing 48000 samples of value 1000 followed by 100 samples of 2000, then
pulling 48000 samples, yields `[500]` repeated 47900 times followed by
`[1000]` repeated 100 times: scaling is applied at push time before eviction
and the 100 oldest scaled samples are the evicted ones. -/
theorem audioMixer_scenario_48k :
    (AudioMixer.get_samples
        ((AudioMixer.new 48000 (1/2)).add_audio_data
          ((AudioMixer.new 48000 (1/2)).add_audio_data []
            (List.replicate 48000 1000))
          (List.replicate 100 2000))
        48000).1
      = List.replicate 47900 (500 : Int) ++ List.replicate 100 1000 := by
  have hcomb :
      (AudioMixer.new 48000 (1/2)).add_audio_data
          ((AudioMixer.new 48000 (1/2)).add_audio_data []
            (List.replicate 48000 1000))
          (List.replicate 100 2000)
        = (AudioMixer.new 48000 (1/2)).add_audio_data []
            (List.replicate 48000 (1000 : Int) ++ List.replicate 100 2000) := by
    unfold AudioMixer.add_audio_data
    exact (List.foldl_append _ _ _ _).symm
  have hbuf :
      (AudioMixer.new 48000 (1/2)).add_audio_data []
          (List.replicate 48000 (1000 : Int) ++ List.replicate 100 2000)
        = List.replicate 47900 (500 : Int) ++ List.replicate 100 1000 := by
    have hcap : (AudioMixer.new 48000 (1/2)).max_buffer_size = 48000 := rfl
    have hlen1 : (List.replicate 48000 (1000 : Int)
        ++ List.replicate 100 2000).length = 48100 := by
      rw [List.length_append, List.length_replicate, List.length_replicate]
    rw [AudioMixer.add_audio_data_eq _ _ _
      (by rw [List.length_nil]; exact Nat.zero_le _)]
    rw [List.nil_append, List.length_nil, Nat.zero_add, hcap, hlen1]
    rw [show (48100 : Nat) - 48000 = 100 from rfl]
    rw [List.map_append, List.map_replicate, List.map_replicate,
      scaled_half_1000, scaled_half_2000]
    rw [List.drop_append_of_le_length (by rw [List.length_replicate]; norm_num)]
    rw [List.drop_replicate]
  rw [hcomb, hbuf, AudioMixer.get_samples_eq]
  have hL : (List.replicate 47900 (500 : Int)
      ++ List.replicate 100 1000).length = 48000 := by
    rw [List.length_append, List.length_replicate, List.length_replicate]
  rw [List.take_of_length_le (le_of_eq hL), hL]
  rw [show (48000 : Nat) - 48000 = 0 from rfl, List.replicate_zero, List.append_nil]

/-- Claim C5: a captured buffer of exactly `w*h*3` bytes is routed to the
raw-RGB conversion path, any other length is routed to the compressed (MJPEG)
decode path, and the dispatch depends only on the byte length (replacing the
buffer by any same-length buffer gives the same path). -/
theorem frame_dispatch_by_length (w h : Nat) (src_bytes : List UInt8) :
    (frameDispatch w h src_bytes = .rawRGB ↔ src_bytes.length = w * h * 3)
    ∧ (frameDispatch w h src_bytes = .compressedMJPEG
        ↔ src_bytes.length ≠ w * h * 3)
    ∧ frameDispatch w h src_bytes
        = frameDispatch w h (List.replicate src_bytes.length 0) := by
  unfold frameDispatch
  rw [List.length_replicate]
  refine ⟨?_, ?_, rfl⟩ <;> split <;> simp_all

/-- Claim C6 (code bug): `convert_to_i16` never re-centers unsigned 16-bit
input.  Because `size_of::<u16>() = size_of::<i16>() = 2`, a `u16` sample
takes the `i16` transmute branch and is bit-reinterpreted — for every input
`u` the result is the two's-complement reading of its 16 bits, so full scale
65535 maps to `-1`, mid-scale 32768 maps to `-32768` (a wraparound
discontinuity below the image of 32767) and nothing is shifted; the
re-centering arm of the chain (lines 440-442) is unreachable. -/
theorem convert_u16_never_recentered :
    (CpalSample.u16Sample 65535).size_of = (CpalSample.i16Sample 0).size_of
    ∧ (∀ u : Nat, convert_to_i16 (.u16Sample u) = i32AsI16 (u : Int))
    ∧ convert_to_i16 (.u16Sample 0) = 0
    ∧ convert_to_i16 (.u16Sample 32767) = 32767
    ∧ convert_to_i16 (.u16Sample 32768) = -32768
    ∧ convert_to_i16 (.u16Sample 65535) = -1
    ∧ convert_to_i16 (.u16Sample 32768) < convert_to_i16 (.u16Sample 32767) :=
  ⟨rfl, fun _ => rfl, by decide, by decide, by decide, by decide, by decide⟩

/-- Claim C7: audio stream construction rejects every sample format other
than 32-bit float, signed 16-bit and unsigned 16-bit with the
unsupported-format error before any stream is built, and does not produce
that error for the three supported formats; the same holds on the playback
side.  The dispatch is a pure function of the format, decided once at
setup. -/
theorem audio_format_fail_fast (fmt : SampleFormat) :
    (start_audio_capture_dispatch fmt = .unsupportedFmtError fmt
      ↔ (fmt ≠ .f32 ∧ fmt ≠ .i16 ∧ fmt ≠ .u16))
    ∧ (start_audio_playback_dispatch fmt = .unsupportedFmtError fmt
      ↔ (fmt ≠ .f32 ∧ fmt ≠ .i16 ∧ fmt ≠ .u16)) := by
  cases fmt <;> exact ⟨by decide, by decide⟩

/-- Counterexample for claim C10: `main` does not join every spawned loop
before completing teardown — the microphone pump task is spawned but never
joined or awaited (its `JoinHandle` is discarded at the spawn site), so the
claimed property fails for it. -/
theorem teardown_join_cex :
    SpawnedLoop.micPumpTask ∈ spawnedLoops
    ∧ SpawnedLoop.micPumpTask ∉ joinedLoops := by
  refine ⟨?_, ?_⟩ <;> decide

/-- Claim C10 (amended): `main`'s teardown sequence (observe shutdown flag,
print, `room.close().await`, return) joins or awaits none of the spawned
loops, although loops are spawned: every `JoinHandle` is discarded, and
spawned threads/tasks are left detached at process exit. -/
theorem teardown_joins_nothing :
    joinedLoops = [] ∧ spawnedLoops ≠ [] := by
  refine ⟨?_, ?_⟩ <;> decide

/-- Claim C9: every audio chunk the microphone pump delivers to the outbound
publish sink has exactly `sample_rate / 100` samples (10 ms of mono audio);
successive chunks are consecutive, non-overlapping, in-order spans of the
converted mic stream (their concatenation followed by the retained carry is
exactly the concatenation of the received packets); and samples left over
below one chunk are retained, never delivered as a partial chunk. -/
theorem mic_pump_fixed_chunks (sample_rate : Nat) (packets : List (List Int))
    (hn : 0 < samples_per_10ms sample_rate) :
    (∀ c ∈ (micPump (samples_per_10ms sample_rate) packets).1,
        c.length = samples_per_10ms sample_rate)
    ∧ (micPump (samples_per_10ms sample_rate) packets).1.flatten
          ++ (micPump (samples_per_10ms sample_rate) packets).2
        = packets.flatten
    ∧ (micPump (samples_per_10ms sample_rate) packets).2.length
        < samples_per_10ms sample_rate := by
  obtain ⟨h1, h2, h3⟩ := micPump_foldl_spec (samples_per_10ms sample_rate) hn
    packets [] [] (by intro c hc; cases hc) (by simpa using hn)
  unfold micPump
  refine ⟨h1, ?_, h3⟩
  rw [h2]
  simp

/-- Witness for C9 at `sample_rate = 300` (so chunks of 3 samples) and
packets `[[1,2],[3,4,5],[6]]`. -/
theorem mic_pump_fixed_chunks_witness :
    (0 < samples_per_10ms 300)
    ∧ ((∀ c ∈ (micPump (samples_per_10ms 300) [[1,2],[3,4,5],[6]]).1,
          c.length = samples_per_10ms 300)
      ∧ (micPump (samples_per_10ms 300) [[1,2],[3,4,5],[6]]).1.flatten
            ++ (micPump (samples_per_10ms 300) [[1,2],[3,4,5],[6]]).2
          = ([[1,2],[3,4,5],[6]] : List (List Int)).flatten
      ∧ (micPump (samples_per_10ms 300) [[1,2],[3,4,5],[6]]).2.length
          < samples_per_10ms 300) :=
  ⟨by decide, mic_pump_fixed_chunks 300 [[1,2],[3,4,5],[6]] (by decide)⟩

end VideoCall
